import Mathlib

/-!
# CleanDir frontend state logic: a shallow embedding

This file embeds the state-manipulating logic of the CleanDir disk-usage
analyzer frontend (the React `App` components) as pure Lean functions and
proves the specified properties about them.

Conventions of the embedding:
* JavaScript numbers used here are non-negative integers (byte sizes, counts,
  millisecond timestamps), so they are modelled as `Nat`.
* The scan cache (a JS object `{ path: { items, stats, timestamp } }`) is
  modelled as an association list with first-match lookup; `put` conses a new
  binding in front (shadowing any old one, exactly the observable behaviour of
  object-key assignment) and `invalidate` removes all bindings for the key
  (the observable behaviour of the `delete` operator).
* The Tauri backend commands (`scan_directory_fast`, `delete_items`), which
  live on the Rust side and are invoked through promises, are modelled as
  oracle parameters (`scan : String → Except String ScanResult`,
  `deleteRes : Except String Unit`); a rejected promise is the `.error` case
  and carries the error message that the `catch` block receives.
* `alert` messages shown to the user are collected in an output list.
* The `window.confirm` dialog result is a `Bool` parameter.
* The background pre-warm loop runs inside `setTimeout(…, 100)`, i.e. as a
  separate asynchronous task after `startScan` has resolved; it is therefore
  modelled as a separate cache transformer `preWarm`, with the stale closure
  capture of `scanCache` made explicit as the `captured` argument.
-/

namespace CleanDir

/-- One scanned file-system entry, as produced by the backend scan commands
and consumed by the frontend (`item.path`, `item.name`, `item.size`,
`item.is_directory`, `item.item_count`, `item.error`). -/
structure Entry where
  path : String
  name : String
  size : Nat
  is_directory : Bool
  item_count : Option Nat := none
  error : Option String := none
deriving Repr, DecidableEq

/-- The `stats` object computed by the frontend:
`{ count: result.items.length, totalSize: result.items.reduce(...) }`. -/
structure Stats where
  count : Nat
  totalSize : Nat
deriving Repr, DecidableEq

/-- The result object returned by a backend scan command (`result.items`). -/
structure ScanResult where
  items : List Entry
deriving Repr, DecidableEq

/-- A value of the scan cache: `{ items, stats, timestamp }`. -/
structure CacheEntry where
  items : List Entry
  stats : Stats
  timestamp : Nat
deriving Repr, DecidableEq

/-- The scan cache `scanCache : { path: { items, stats, timestamp } }`,
modelled as an association list with first-match lookup. -/
abbrev Cache := List (String × CacheEntry)

/-- Reading `scanCache[path]`. -/
def cacheGet (c : Cache) (p : String) : Option CacheEntry :=
  (c.find? (fun kv => kv.1 == p)).map (fun kv => kv.2)

/-- Writing `setScanCache(prev => ({ ...prev, [path]: entry }))`: the new
binding shadows any previous one under first-match lookup. -/
def cachePut (c : Cache) (p : String) (e : CacheEntry) : Cache :=
  (p, e) :: c

/-- Deleting a key, `delete newCache[path]`: every binding for the key is
removed. -/
def cacheInvalidate (c : Cache) (p : String) : Cache :=
  c.filter (fun kv => kv.1 != p)

/-- One record of the persisted deletion history
(`{ path, name, size, is_directory, deleted_at, ... }`). -/
structure DeleteRecord where
  path : String
  name : String
  size : Nat
  is_directory : Bool
  deleted_at : Nat
deriving Repr, DecidableEq

/-- The deletion-history update performed in `deleteSelected`:
`itemsToDelete.forEach(item => deleteHistory.unshift(record(item)))` followed
by `if (deleteHistory.length > 100) deleteHistory.splice(100)`.
The history list is newest-first (`unshift` puts new records in front). -/
def appendDeleteRecords (history : List DeleteRecord) (recs : List DeleteRecord) :
    List DeleteRecord :=
  let h := recs.foldl (fun acc r => r :: acc) history
  if h.length > 100 then h.take 100 else h

/-- Inserting records one at a time, each through the bounded-log update
(the "inserting 150 DeleteRecords sequentially" scenario). -/
def insertAll (recs : List DeleteRecord) : List DeleteRecord :=
  recs.foldl (fun h r => appendDeleteRecords h [r]) []

/-- The stats computation repeated at every scan completion:
`{ count: result.items.length,
   totalSize: result.items.reduce((sum, item) => sum + item.size, 0) }`. -/
def computeStats (items : List Entry) : Stats :=
  { count := items.length
    totalSize := items.foldl (fun sum item => sum + item.size) 0 }

/-- The React state of the cached-navigation `App` component that the claims
are about (UI-only flags such as `isScanning` and the progress fields are
omitted: no claim mentions them). -/
structure AppState where
  currentPath : String
  items : List Entry
  stats : Stats
  selectedItems : List String
  pathHistory : List String
  scanCache : Cache
  deleteHistory : List DeleteRecord
deriving Repr, DecidableEq

/-- The `startScan(forceRefresh)` handler of the cached variant.  A cache hit
(`!forceRefresh && scanCache[currentPath]`) displays the cached items/stats
and returns.  Otherwise items and selection are cleared, the backend scan is
invoked, and on success the stats are computed, the result is written to the
cache and displayed; on failure a single alert is emitted (`finally` only
resets UI flags that are not part of this state).  The background pre-warm
body runs later as a separate task: see `preWarm`. -/
def startScan (s : AppState) (forceRefresh : Bool)
    (scan : String → Except String ScanResult) (now : Nat) :
    AppState × List String :=
  if s.currentPath = "" then (s, [])
  else
    match forceRefresh, cacheGet s.scanCache s.currentPath with
    | false, some cached =>
        ({ s with items := cached.items, stats := cached.stats }, [])
    | _, _ =>
        let s0 := { s with items := [], selectedItems := [] }
        match scan s.currentPath with
        | .ok result =>
            let st := computeStats result.items
            ({ s0 with
                items := result.items
                stats := st
                scanCache := cachePut s0.scanCache s.currentPath
                  ⟨result.items, st, now⟩ }, [])
        | .error e => (s0, ["scan failed: " ++ e])

/-- The candidate list of the pre-warm loop:
`result.items.filter(item => item.is_directory).slice(0, 5)`. -/
def topDirs (items : List Entry) : List Entry :=
  (items.filter (fun item => item.is_directory)).take 5

/-- The directories the pre-warm loop actually scans: the members of
`topDirs` that fail the `if (!scanCache[item.path])` check against the
captured (pre-scan) cache. -/
def preWarmTargets (captured : Cache) (items : List Entry) : List Entry :=
  (topDirs items).filter (fun item => (cacheGet captured item.path).isNone)

/-- The body of one iteration of the pre-warm loop: if the path is absent
from the captured cache, scan it and write the sub-result and its stats into
the cache; scan failures are swallowed silently (`catch (e) {}`). -/
def preWarmStep (captured : Cache) (scan : String → Except String ScanResult)
    (now : Nat) (c : Cache) (item : Entry) : Cache :=
  if (cacheGet captured item.path).isNone then
    match scan item.path with
    | .ok subResult =>
        cachePut c item.path ⟨subResult.items, computeStats subResult.items, now⟩
    | .error _ => c
  else c

/-- The body of the `setTimeout` pre-warm task: the loop
`for (const item of topDirs) { if (!scanCache[item.path]) { … } }`. -/
def preWarm (captured : Cache) (items : List Entry)
    (scan : String → Except String ScanResult) (now : Nat) (cache : Cache) :
    Cache :=
  (topDirs items).foldl (preWarmStep captured scan now) cache

/-- Modelled from the spec: the reading of the pre-warm contract in which the
set of directories scanned is "the 5 largest directory children of D that are
not already cached", i.e. the uncached directory children are determined
first and the 5 largest (first 5 in descending-size order) among them are
scanned.  This is the claim's wording, to be compared with `preWarmTargets`,
which is the source's behaviour. -/
def claimPreWarmTargets (captured : Cache) (items : List Entry) : List Entry :=
  ((items.filter (fun item => item.is_directory)).filter
    (fun item => (cacheGet captured item.path).isNone)).take 5

/-- The `goBack` handler of the cached variant: with a non-empty history, pop
the last path, make it current, and only if the cache holds that path display
its items/stats; otherwise nothing else changes (no rescan, no message). -/
def goBack (s : AppState) : AppState :=
  if s.pathHistory = [] then s
  else
    let lastPath := s.pathHistory.getLastD ""
    let s1 := { s with
        pathHistory := s.pathHistory.dropLast
        currentPath := lastPath }
    match cacheGet s.scanCache lastPath with
    | some cached => { s1 with items := cached.items, stats := cached.stats }
    | none => s1

/-- The `toggleSelection(itemPath)` handler (identical in both App variants):
copy the selection set, delete the path if present, add it otherwise.  A JS
`Set` is modelled as a list of its elements in insertion order (`add` appends,
`delete` removes the element). -/
def toggleSelection (selected : List String) (itemPath : String) : List String :=
  if itemPath ∈ selected then selected.filter (fun q => q != itemPath)
  else selected ++ [itemPath]

/-- The record pushed for one deleted entry
(`{ path, name, size, is_directory, deleted_at: timestamp, ... }`;
the human-readable timestamp string is derived data and omitted). -/
def toDeleteRecord (now : Nat) (item : Entry) : DeleteRecord :=
  { path := item.path
    name := item.name
    size := item.size
    is_directory := item.is_directory
    deleted_at := now }

/-- The `deleteSelected` handler of the cached variant.  Empty selection:
immediate return.  Unconfirmed dialog: return.  Otherwise the backend
`delete_items` call is made (its outcome is the oracle `deleteRes`); on
success the history is appended (one record per selected entry resolved in
`items`), the selection is cleared, the current directory's cache entry is
invalidated, a forced rescan runs (`startScan('fast', true)` — the first
argument is truthy, so the cache is bypassed) and a success alert is shown;
on failure a single failure alert is shown and the state is unchanged. -/
def deleteSelected (s : AppState) (confirmed : Bool)
    (deleteRes : Except String Unit)
    (scan : String → Except String ScanResult) (now : Nat) :
    AppState × List String :=
  if s.selectedItems = [] then (s, [])
  else
    let itemsToDelete :=
      s.selectedItems.filterMap (fun p => s.items.find? (fun i => i.path == p))
    if ¬ confirmed then (s, [])
    else
      match deleteRes with
      | .ok _ =>
          let history :=
            appendDeleteRecords s.deleteHistory (itemsToDelete.map (toDeleteRecord now))
          let s1 := { s with
              deleteHistory := history
              selectedItems := []
              scanCache := cacheInvalidate s.scanCache s.currentPath }
          let out := startScan s1 true scan now
          (out.1, out.2 ++ ["moved to trash"])
      | .error e => (s, ["move to trash failed: " ++ e])

/-- The size ordering used by the presentation layer: descending size
(the JS comparator `(a, b) => b.size - a.size`). -/
def sizeGe (a b : Entry) : Prop := b.size ≤ a.size

instance : DecidableRel sizeGe := fun a b =>
  inferInstanceAs (Decidable (b.size ≤ a.size))

instance : IsTotal Entry sizeGe :=
  ⟨fun a b => Nat.le_total b.size a.size⟩

instance : IsTrans Entry sizeGe :=
  ⟨fun _ _ _ hab hbc => Nat.le_trans hbc hab⟩

/-- Modelled from the spec: the backend scan commands (Rust side, not present
under `src/`) return their item list already sorted by descending size
("final list of sized entries is returned, sorted by size").  A scan result's
items therefore satisfy this predicate. -/
def sortedBySizeDesc (items : List Entry) : Prop :=
  items.Pairwise sizeGe

instance (items : List Entry) : Decidable (sortedBySizeDesc items) :=
  inferInstanceAs (Decidable (items.Pairwise sizeGe))

/-- The cached variant's left list rendering:
`[...items].sort((a, b) => b.size - a.size).slice(0, 10)` (a stable sort by
descending size, then the first ten). -/
def listRendering (items : List Entry) : List Entry :=
  (List.insertionSort sizeGe items).take 10

/-- The big bubbles: `items.slice(0, 3)`. -/
def bubbleLarge (items : List Entry) : List Entry :=
  items.take 3

/-- The medium bubbles: `items.slice(3, 8)`. -/
def bubbleMedium (items : List Entry) : List Entry :=
  (items.drop 3).take 5

/-- The small bubbles: `items.slice(8, 15)`. -/
def bubbleSmall (items : List Entry) : List Entry :=
  (items.drop 8).take 7

/-- The list rendering of the `App-Bubble` variant: `items.slice(0, 10)`
(no re-sort). -/
def bubbleList (items : List Entry) : List Entry :=
  items.take 10

/-- The two mutations ever applied to the scan cache: a `put` on scan
completion (foreground or pre-warm) and an `invalidate` on deletion or forced
refresh. -/
inductive CacheOp where
  | put : String → CacheEntry → CacheOp
  | invalidate : String → CacheOp
deriving Repr, DecidableEq

/-- Application of one cache mutation. -/
def applyCacheOp (c : Cache) : CacheOp → Cache
  | .put p e => cachePut c p e
  | .invalidate p => cacheInvalidate c p

/-- Whether a cache mutation concerns the given path. -/
def touchesPath : CacheOp → String → Bool
  | .put q _, p => q == p
  | .invalidate q, p => q == p

/-! ## Sample data used by the witnesses -/

/-- A sample entry builder. -/
def sampleEntry (p : String) (sz : Nat) (dir : Bool) : Entry :=
  { path := p, name := p, size := sz, is_directory := dir }

/-- A sample deletion record. -/
def sampleRecord : DeleteRecord :=
  { path := "p", name := "n", size := 1, is_directory := false, deleted_at := 0 }

/-- A sample cache value. -/
def sampleCacheEntry : CacheEntry :=
  ⟨[sampleEntry "x" 3 false], ⟨1, 3⟩, 5⟩

/-- Six directory children sorted by descending size. -/
def pwItems : List Entry :=
  [sampleEntry "a" 60 true, sampleEntry "b" 50 true, sampleEntry "c" 40 true,
   sampleEntry "d" 30 true, sampleEntry "e" 20 true, sampleEntry "f" 10 true]

/-- A cache already holding the largest child `"a"`. -/
def pwCaptured : Cache := [("a", sampleCacheEntry)]

/-- A backend oracle whose scans all succeed with one small file. -/
def pwScan : String → Except String ScanResult :=
  fun _ => .ok ⟨[sampleEntry "z" 7 false]⟩

/-- A backend oracle whose scans all fail. -/
def wScanFail : String → Except String ScanResult :=
  fun _ => .error "boom"

/-- A sample app state whose current directory `"d"` is cached. -/
def wState : AppState :=
  { currentPath := "d", items := [], stats := ⟨0, 0⟩, selectedItems := [],
    pathHistory := [], scanCache := [("d", sampleCacheEntry)], deleteHistory := [] }

/-- A sample app state with a selection resolvable in its items. -/
def delState : AppState :=
  { currentPath := "d", items := [sampleEntry "a" 5 true, sampleEntry "b" 3 false],
    stats := ⟨2, 8⟩, selectedItems := ["b"], pathHistory := [],
    scanCache := [("d", sampleCacheEntry)], deleteHistory := [] }

/-- A sample app state with navigation history and an empty cache. -/
def wBackState : AppState :=
  { currentPath := "d", items := [sampleEntry "a" 5 true], stats := ⟨1, 5⟩,
    selectedItems := [], pathHistory := ["x", "y"], scanCache := [],
    deleteHistory := [sampleRecord] }

/-! ## Helper lemmas -/

/-- Left-folding `cons` builds the reversed list in front of the seed. -/
theorem foldl_cons_eq_reverse_append (recs : List DeleteRecord) :
    ∀ h : List DeleteRecord,
      recs.foldl (fun acc r => r :: acc) h = recs.reverse ++ h := by
  induction recs with
  | nil => intro h; simp
  | cons a t ih =>
      intro h
      rw [List.foldl_cons, ih, List.reverse_cons, List.append_assoc]
      rfl

/-- The bounded-log update keeps the first 100 of the reversed batch put in
front of the old history. -/
theorem appendDeleteRecords_eq_take (history recs : List DeleteRecord) :
    appendDeleteRecords history recs = (recs.reverse ++ history).take 100 := by
  have hif : appendDeleteRecords history recs =
      if (recs.reverse ++ history).length > 100 then (recs.reverse ++ history).take 100
      else recs.reverse ++ history := by
    unfold appendDeleteRecords
    rw [foldl_cons_eq_reverse_append]
  rw [hif]
  split_ifs with h
  · rfl
  · exact (List.take_of_length_le (by omega)).symm

/-- Truncating the tail before appending does not change a bounded prefix. -/
theorem take_append_take {α : Type} (A t : List α) (n : Nat) :
    (A ++ t.take n).take n = (A ++ t).take n := by
  rw [List.take_append_eq_append_take, List.take_append_eq_append_take,
    List.take_take, Nat.min_eq_left (Nat.sub_le n A.length)]

/-- Sequential single-record insertion through the bounded log computes the
first 100 of the reversed insertion sequence. -/
theorem insertAll_go (recs : List DeleteRecord) :
    ∀ h : List DeleteRecord, h.length ≤ 100 →
      recs.foldl (fun acc r => appendDeleteRecords acc [r]) h
        = (recs.reverse ++ h).take 100 := by
  induction recs with
  | nil => intro h hle; simp [List.take_of_length_le hle]
  | cons a t ih =>
      intro h hle
      rw [List.foldl_cons]
      have h1 : appendDeleteRecords h [a] = (a :: h).take 100 := by
        rw [appendDeleteRecords_eq_take]; rfl
      rw [h1, ih _ (List.length_take_le ..), take_append_take]
      congr 1
      rw [List.reverse_cons, List.append_assoc]
      rfl

/-- Any sequence of bounded-log batch updates keeps the length within the
cap, starting from any state within the cap. -/
theorem foldl_appendDeleteRecords_length_le (batches : List (List DeleteRecord)) :
    ∀ start : List DeleteRecord, start.length ≤ 100 →
      (batches.foldl appendDeleteRecords start).length ≤ 100 := by
  induction batches with
  | nil => intro s hs; exact hs
  | cons b t ih =>
      intro s _
      rw [List.foldl_cons]
      exact ih _ (by rw [appendDeleteRecords_eq_take]; exact List.length_take_le ..)

/-- Reading back the key just written. -/
theorem cacheGet_put_self (c : Cache) (p : String) (e : CacheEntry) :
    cacheGet (cachePut c p e) p = some e := by
  simp [cacheGet, cachePut, List.find?_cons]

/-- Writing one key leaves reads of other keys unchanged. -/
theorem cacheGet_put_ne (c : Cache) (p q : String) (e : CacheEntry) (h : q ≠ p) :
    cacheGet (cachePut c p e) q = cacheGet c q := by
  have hb : (p == q) = false := beq_eq_false_iff_ne.mpr (fun hc => h hc.symm)
  simp [cacheGet, cachePut, List.find?_cons, hb]

/-- Filtering out never-matching elements does not change a first-match
search. -/
theorem find?_filter_comm {α : Type} (l : List α) (pd f : α → Bool)
    (h : ∀ x, pd x = true → f x = true) :
    (l.filter f).find? pd = l.find? pd := by
  induction l with
  | nil => rfl
  | cons a t ih =>
      by_cases hf : f a
      · rw [List.filter_cons_of_pos hf]
        by_cases hpd : pd a
        · simp [List.find?_cons, hpd]
        · simp only [Bool.not_eq_true] at hpd
          simp [List.find?_cons, hpd, ih]
      · have hpd : pd a = false := by
          cases hpd' : pd a
          · rfl
          · exact absurd (h a hpd') hf
        rw [List.filter_cons_of_neg (by simpa using hf)]
        rw [ih, List.find?_cons, hpd]

/-- Invalidating a key removes it. -/
theorem cacheGet_invalidate_self (c : Cache) (p : String) :
    cacheGet (cacheInvalidate c p) p = none := by
  have hfind : (c.filter (fun kv => kv.1 != p)).find? (fun kv => kv.1 == p) = none := by
    rw [List.find?_eq_none]
    intro x hx
    have hx2 := (List.mem_filter.mp hx).2
    simp only [bne_iff_ne, ne_eq] at hx2
    simp [hx2]
  simp [cacheGet, cacheInvalidate, hfind]

/-- Invalidating one key leaves reads of other keys unchanged. -/
theorem cacheGet_invalidate_ne (c : Cache) (p q : String) (h : p ≠ q) :
    cacheGet (cacheInvalidate c q) p = cacheGet c p := by
  unfold cacheGet cacheInvalidate
  rw [find?_filter_comm]
  intro x hx
  have : x.1 = p := by simpa using hx
  simp [this, bne_iff_ne, h]

/-- A cache mutation not concerning a path leaves reads of it unchanged. -/
theorem cacheGet_applyCacheOp_untouched (c : Cache) (op : CacheOp) (p : String)
    (h : touchesPath op p = false) :
    cacheGet (applyCacheOp c op) p = cacheGet c p := by
  cases op with
  | put q e =>
      have : p ≠ q := fun he => by simp [touchesPath, he] at h
      exact cacheGet_put_ne c q p e this
  | invalidate q =>
      have : p ≠ q := fun he => by simp [touchesPath, he] at h
      exact cacheGet_invalidate_ne c p q this

/-- A sequence of cache mutations not concerning a path leaves reads of it
unchanged. -/
theorem cacheGet_foldl_untouched (ops : List CacheOp) (p : String) :
    ∀ c : Cache, (∀ op ∈ ops, touchesPath op p = false) →
      cacheGet (ops.foldl applyCacheOp c) p = cacheGet c p := by
  induction ops with
  | nil => intro c _; rfl
  | cons op t ih =>
      intro c h
      rw [List.foldl_cons, ih _ (fun o ho => h o (List.mem_cons_of_mem _ ho)),
        cacheGet_applyCacheOp_untouched _ _ _ (h op (List.mem_cons_self _ _))]

/-- Folding the size accumulator from any seed adds the mapped sum. -/
theorem foldl_add_size (l : List Entry) : ∀ n : Nat,
    l.foldl (fun sum item => sum + item.size) n = n + (l.map Entry.size).sum := by
  induction l with
  | nil => intro n; simp
  | cons a t ih =>
      intro n
      rw [List.foldl_cons, ih, List.map_cons, List.sum_cons]
      omega

/-- One pre-warm iteration leaves reads of any other path unchanged. -/
theorem preWarmStep_get_ne (captured : Cache)
    (scan : String → Except String ScanResult) (now : Nat)
    (c : Cache) (item : Entry) (p : String) (h : item.path ≠ p) :
    cacheGet (preWarmStep captured scan now c item) p = cacheGet c p := by
  unfold preWarmStep
  split_ifs
  · cases scan item.path with
    | ok r => exact cacheGet_put_ne _ _ _ _ (fun he => h he.symm)
    | error e => rfl
  · rfl

/-- Folding pre-warm iterations whose would-be writes all avoid a path
leaves reads of it unchanged. -/
theorem preWarm_fold_get_ne (captured : Cache)
    (scan : String → Except String ScanResult) (now : Nat) (l : List Entry) :
    ∀ (c : Cache) (p : String),
      (∀ i ∈ l, (cacheGet captured i.path).isNone = true → i.path ≠ p) →
      cacheGet (l.foldl (preWarmStep captured scan now) c) p = cacheGet c p := by
  induction l with
  | nil => intro c p _; rfl
  | cons a t ih =>
      intro c p h
      have hstep : cacheGet (preWarmStep captured scan now c a) p = cacheGet c p := by
        unfold preWarmStep
        split_ifs with hun
        · cases scan a.path with
          | ok r =>
              exact cacheGet_put_ne _ _ _ _
                (fun he => h a (List.mem_cons_self _ _) hun he.symm)
          | error e => rfl
        · rfl
      rw [List.foldl_cons, ih _ _ (fun i hi => h i (List.mem_cons_of_mem _ hi)), hstep]

/-- Folding the pre-warm iterations writes the scan result of every uncached
directory it visits, provided the visited paths are distinct. -/
theorem preWarm_fold_get_target (captured : Cache)
    (scan : String → Except String ScanResult) (now : Nat) (l : List Entry) :
    ∀ (c : Cache) (i : Entry) (r : ScanResult), i ∈ l →
      (l.map Entry.path).Nodup →
      (cacheGet captured i.path).isNone = true → scan i.path = .ok r →
      cacheGet (l.foldl (preWarmStep captured scan now) c) i.path
        = some ⟨r.items, computeStats r.items, now⟩ := by
  induction l with
  | nil => intro c i r hmem _ _ _; cases hmem
  | cons a t ih =>
      intro c i r hmem hnodup hun hscan
      rw [List.map_cons, List.nodup_cons] at hnodup
      rw [List.foldl_cons]
      rcases List.mem_cons.mp hmem with rfl | hmemt
      · have hstep : cacheGet (preWarmStep captured scan now c i) i.path
            = some ⟨r.items, computeStats r.items, now⟩ := by
          unfold preWarmStep
          rw [if_pos hun, hscan]
          exact cacheGet_put_self ..
        have hrest : ∀ j ∈ t, (cacheGet captured j.path).isNone = true →
            j.path ≠ i.path := by
          intro j hj _ he
          exact hnodup.1 (he ▸ List.mem_map_of_mem Entry.path hj)
        rw [preWarm_fold_get_ne captured scan now t _ _ hrest, hstep]
      · exact ih _ _ _ hmemt hnodup.2 hun hscan

/-! ## The claims -/

/-- C1: the persisted deletion history always holds at most 100 records; a
batch update keeps exactly the 100 most recent records newest-first (the
first 100 of the reversed batch in front of the old log); inserting records
sequentially yields the first 100 of the reversed insertion sequence, and
inserting 150 sequentially leaves exactly the 100 most recent, newest
first. -/
theorem deleteHistory_bounded :
    (∀ batches : List (List DeleteRecord),
      (batches.foldl appendDeleteRecords []).length ≤ 100)
    ∧ (∀ history recs : List DeleteRecord,
        appendDeleteRecords history recs = (recs.reverse ++ history).take 100)
    ∧ (∀ recs : List DeleteRecord, insertAll recs = recs.reverse.take 100)
    ∧ (∀ recs : List DeleteRecord, recs.length = 150 →
        insertAll recs = (recs.drop 50).reverse
        ∧ (insertAll recs).length = 100) := by
  have hseq : ∀ recs : List DeleteRecord, insertAll recs = recs.reverse.take 100 := by
    intro recs
    unfold insertAll
    rw [insertAll_go recs [] (by simp)]
    simp
  refine ⟨?_, appendDeleteRecords_eq_take, hseq, ?_⟩
  · intro batches
    exact foldl_appendDeleteRecords_length_le batches [] (by simp)
  · intro recs h150
    have hrev : recs.reverse = (recs.drop 50).reverse ++ (recs.take 50).reverse := by
      rw [← List.reverse_append, List.take_append_drop]
    have hlen : ((recs.drop 50).reverse).length = 100 := by
      rw [List.length_reverse, List.length_drop, h150]
    constructor
    · rw [hseq, hrev, List.take_left' hlen]
    · rw [hseq, hrev, List.take_left' hlen, hlen]

/-- Witness for C1: 150 sequential insertions of a concrete record leave
exactly the 100 most recent, newest first. -/
theorem deleteHistory_bounded_witness :
    insertAll (List.replicate 150 sampleRecord)
      = ((List.replicate 150 sampleRecord).drop 50).reverse
    ∧ (insertAll (List.replicate 150 sampleRecord)).length = 100 :=
  deleteHistory_bounded.2.2.2 (List.replicate 150 sampleRecord) (by simp)

/-- C2: after a `put(P, e)`, reads of `P` return exactly `e` across any
sequence of cache mutations that neither put to nor invalidate `P` (the model
has no notion of time, faithfully to the source, whose cache reads never
consult the stored timestamp); and a non-forced `startScan` on a cached
current path displays exactly the cached items and stats. -/
theorem cache_put_get_spec :
    (∀ (c : Cache) (p : String) (e : CacheEntry) (ops : List CacheOp),
      (∀ op ∈ ops, touchesPath op p = false) →
      cacheGet (ops.foldl applyCacheOp (cachePut c p e)) p = some e)
    ∧ (∀ (s : AppState) (cached : CacheEntry)
        (scan : String → Except String ScanResult) (now : Nat),
        s.currentPath ≠ "" →
        cacheGet s.scanCache s.currentPath = some cached →
        startScan s false scan now
          = ({ s with items := cached.items, stats := cached.stats }, [])) := by
  constructor
  · intro c p e ops h
    rw [cacheGet_foldl_untouched ops p _ h, cacheGet_put_self]
  · intro s cached scan now hcur hget
    unfold startScan
    rw [if_neg hcur, hget]

/-- Witness for C2: a concrete put survives a put to another path and an
invalidation of a third, and a concrete cached state is displayed from the
cache. -/
theorem cache_put_get_spec_witness :
    cacheGet ([CacheOp.put "q" sampleCacheEntry,
        CacheOp.invalidate "r"].foldl applyCacheOp
      (cachePut [] "p" sampleCacheEntry)) "p" = some sampleCacheEntry
    ∧ startScan wState false wScanFail 9
        = ({ wState with
              items := sampleCacheEntry.items
              stats := sampleCacheEntry.stats }, []) :=
  ⟨cache_put_get_spec.1 [] "p" sampleCacheEntry _ (by decide),
   cache_put_get_spec.2 wState sampleCacheEntry wScanFail 9 (by decide) (by decide)⟩

/-- C3: the stats stored alongside every completed scan satisfy
`totalSize = sum of the items' sizes` and `count = number of items`. -/
theorem stats_match_items (items : List Entry) :
    (computeStats items).totalSize = (items.map Entry.size).sum
    ∧ (computeStats items).count = items.length := by
  constructor
  · show items.foldl (fun sum item => sum + item.size) 0 = (items.map Entry.size).sum
    rw [foldl_add_size]
    omega
  · rfl

/-- Witness for C3: the stats of a concrete item list. -/
theorem stats_match_items_witness :
    (computeStats pwItems).totalSize = (pwItems.map Entry.size).sum
    ∧ (computeStats pwItems).count = pwItems.length :=
  stats_match_items pwItems

/-- C4 counterexample: with six directory children sorted by descending size
and the largest one already cached, the code's pre-warm loop scans only the
four uncached among the top five (it skips cached ones without substituting
the sixth-largest), while the claim's reading — the 5 largest among the
not-already-cached directory children — contains five directories. -/
theorem preWarm_targets_cex :
    preWarmTargets pwCaptured pwItems ≠ claimPreWarmTargets pwCaptured pwItems
    ∧ sortedBySizeDesc pwItems
    ∧ (pwItems.map Entry.path).Nodup
    ∧ (preWarmTargets pwCaptured pwItems).length = 4
    ∧ (claimPreWarmTargets pwCaptured pwItems).length = 5 := by
  decide

/-- C4 amended: after a top-level scan completes with items sorted by
descending size (spec-modelled backend guarantee) and distinct paths, the
pre-warm task scans exactly those among the 5 largest directory children
that are not already cached: every target is an uncached directory from the
result, at most five are scanned, each target is at least as large as every
directory child beyond the top five, paths outside the target set keep their
cache reads, and each target whose scan succeeds has its result and stats
written into the cache. -/
theorem preWarm_targets_amended (captured cache : Cache) (items : List Entry)
    (scan : String → Except String ScanResult) (now : Nat)
    (hsorted : sortedBySizeDesc items)
    (hnodup : (items.map Entry.path).Nodup) :
    (∀ i ∈ preWarmTargets captured items,
      i.is_directory = true ∧ cacheGet captured i.path = none ∧ i ∈ items)
    ∧ (preWarmTargets captured items).length ≤ 5
    ∧ (∀ i ∈ preWarmTargets captured items,
        ∀ j ∈ (items.filter (fun item => item.is_directory)).drop 5, j.size ≤ i.size)
    ∧ (∀ p : String, (∀ i ∈ preWarmTargets captured items, i.path ≠ p) →
        cacheGet (preWarm captured items scan now cache) p = cacheGet cache p)
    ∧ (∀ i ∈ preWarmTargets captured items, ∀ r : ScanResult,
        scan i.path = .ok r →
        cacheGet (preWarm captured items scan now cache) i.path
          = some ⟨r.items, computeStats r.items, now⟩) := by
  have htopsub : List.Sublist (topDirs items) (items.filter (fun item => item.is_directory)) :=
    List.take_sublist ..
  have htopitems : List.Sublist (topDirs items) items :=
    htopsub.trans (List.filter_sublist _)
  have htargets : ∀ i ∈ preWarmTargets captured items,
      i ∈ topDirs items ∧ (cacheGet captured i.path).isNone = true := by
    intro i hi
    have hi' : i ∈ (topDirs items).filter
        (fun item => (cacheGet captured item.path).isNone) := hi
    exact List.mem_filter.mp hi'
  refine ⟨?_, ?_, ?_, ?_, ?_⟩
  · intro i hi
    obtain ⟨htop, hun⟩ := htargets i hi
    have hdir := List.mem_filter.mp (htopsub.subset htop)
    exact ⟨hdir.2, Option.isNone_iff_eq_none.mp hun, hdir.1⟩
  · have h1 : (preWarmTargets captured items).length ≤ (topDirs items).length :=
      List.length_filter_le _ _
    exact h1.trans (List.length_take_le ..)
  · intro i hi j hj
    have hdirs : (items.filter (fun item => item.is_directory)).Pairwise sizeGe :=
      hsorted.sublist (List.filter_sublist _)
    have hpw : ((items.filter (fun item => item.is_directory)).take 5
        ++ (items.filter (fun item => item.is_directory)).drop 5).Pairwise sizeGe := by
      rw [List.take_append_drop]
      exact hdirs
    exact (List.pairwise_append.mp hpw).2.2 i (htargets i hi).1 j hj
  · intro p h
    apply preWarm_fold_get_ne
    intro i hi hun
    exact h i (List.mem_filter.mpr ⟨hi, hun⟩)
  · intro i hi r hscan
    obtain ⟨htop, hun⟩ := htargets i hi
    apply preWarm_fold_get_target captured scan now (topDirs items) cache i r htop
      ((List.Sublist.map Entry.path htopitems).nodup hnodup) hun hscan

/-- Witness for C4 amended: in the concrete counterexample situation the
second-largest child `"b"` is pre-warm scanned and its result and stats land
in the cache. -/
theorem preWarm_targets_amended_witness :
    cacheGet (preWarm pwCaptured pwItems pwScan 3 []) "b"
      = some ⟨[sampleEntry "z" 7 false], computeStats [sampleEntry "z" 7 false], 3⟩ :=
  (preWarm_targets_amended pwCaptured [] pwItems pwScan 3 (by decide)
    (by decide)).2.2.2.2 (sampleEntry "b" 50 true) (by decide)
    ⟨[sampleEntry "z" 7 false]⟩ rfl

/-- A filterMap whose function succeeds on every element keeps the length. -/
theorem length_filterMap_all {α β : Type} (l : List α) (f : α → Option β)
    (h : ∀ a ∈ l, (f a).isSome) : (l.filterMap f).length = l.length := by
  induction l with
  | nil => rfl
  | cons a t ih =>
      obtain ⟨b, hb⟩ := Option.isSome_iff_exists.mp (h a (List.mem_cons_self _ _))
      rw [List.filterMap_cons, hb, List.length_cons,
        ih (fun x hx => h x (List.mem_cons_of_mem _ hx)), List.length_cons]

/-- A path present among the items is found by the lookup in
`deleteSelected`. -/
theorem find?_isSome_of_mem (items : List Entry) (p : String)
    (h : ∃ i ∈ items, i.path = p) :
    (items.find? (fun i => i.path == p)).isSome := by
  cases hf : items.find? (fun i => i.path == p) with
  | some v => rfl
  | none =>
      obtain ⟨i, hi, hip⟩ := h
      have := List.find?_eq_none.mp hf i hi
      simp [hip] at this

/-- C5: a confirmed, successful batch deletion with a non-empty selection
resolvable in the current items appends exactly one DeleteRecord per deleted
entry to the bounded history log (newest first, capped at 100), clears the
selection, and — having invalidated the parent's cache entry — triggers a
fresh forced scan of the current directory: on scan success the fresh items
are displayed and the fresh entry (with the new timestamp) is in the cache;
on scan failure the parent's cache entry is gone and no items are shown. -/
theorem deleteSelected_success_effects (s : AppState)
    (scan : String → Except String ScanResult) (now : Nat)
    (hsel : s.selectedItems ≠ []) (hcur : s.currentPath ≠ "")
    (hres : ∀ p ∈ s.selectedItems, ∃ i ∈ s.items, i.path = p) :
    (s.selectedItems.filterMap (fun p => s.items.find? (fun i => i.path == p))).length
      = s.selectedItems.length
    ∧ (deleteSelected s true (.ok ()) scan now).1.deleteHistory
        = (((s.selectedItems.filterMap (fun p => s.items.find? (fun i => i.path == p))).map
            (toDeleteRecord now)).reverse ++ s.deleteHistory).take 100
    ∧ (deleteSelected s true (.ok ()) scan now).1.selectedItems = []
    ∧ (match scan s.currentPath with
       | .ok r =>
           (deleteSelected s true (.ok ()) scan now).1.items = r.items
           ∧ cacheGet (deleteSelected s true (.ok ()) scan now).1.scanCache s.currentPath
               = some ⟨r.items, computeStats r.items, now⟩
       | .error _ =>
           cacheGet (deleteSelected s true (.ok ()) scan now).1.scanCache s.currentPath
             = none
           ∧ (deleteSelected s true (.ok ()) scan now).1.items = []) := by
  have hlen : (s.selectedItems.filterMap
      (fun p => s.items.find? (fun i => i.path == p))).length
      = s.selectedItems.length := by
    apply length_filterMap_all
    intro p hp
    exact find?_isSome_of_mem s.items p (hres p hp)
  refine ⟨hlen, ?_, ?_, ?_⟩
  · cases hscan : scan s.currentPath with
    | ok r =>
        simp [deleteSelected, startScan, hsel, hcur, hscan, appendDeleteRecords_eq_take]
    | error e =>
        simp [deleteSelected, startScan, hsel, hcur, hscan, appendDeleteRecords_eq_take]
  · cases hscan : scan s.currentPath with
    | ok r => simp [deleteSelected, startScan, hsel, hcur, hscan]
    | error e => simp [deleteSelected, startScan, hsel, hcur, hscan]
  · cases hscan : scan s.currentPath with
    | ok r =>
        simp only [hscan]
        constructor
        · simp [deleteSelected, startScan, hsel, hcur, hscan]
        · simp [deleteSelected, startScan, hsel, hcur, hscan, cacheGet_put_self]
    | error e =>
        simp only [hscan]
        constructor
        · simp [deleteSelected, startScan, hsel, hcur, hscan, cacheGet_invalidate_self]
        · simp [deleteSelected, startScan, hsel, hcur, hscan]

/-- Witness for C5: deleting the selected concrete entry appends one record
per selected path. -/
theorem deleteSelected_success_effects_witness :
    (delState.selectedItems.filterMap
      (fun p => delState.items.find? (fun i => i.path == p))).length
      = delState.selectedItems.length :=
  (deleteSelected_success_effects delState pwScan 11 (by decide) (by decide)
    (by decide)).1

/-- C6: the list rendering of the cached variant re-sorts by descending size
and so is always descending; the bubble renderings and the other variant's
list rendering are contiguous slices of the scan result, which is descending
whenever the backend items are sorted by descending size (spec-modelled
backend guarantee). -/
theorem presentation_sorted (items : List Entry) (h : sortedBySizeDesc items) :
    (listRendering items).Pairwise sizeGe
    ∧ (bubbleLarge items).Pairwise sizeGe
    ∧ (bubbleMedium items).Pairwise sizeGe
    ∧ (bubbleSmall items).Pairwise sizeGe
    ∧ (bubbleList items).Pairwise sizeGe := by
  have hp : items.Pairwise sizeGe := h
  refine ⟨?_, ?_, ?_, ?_, ?_⟩
  · exact List.Pairwise.sublist (List.take_sublist ..)
      (List.sorted_insertionSort sizeGe items)
  · exact List.Pairwise.sublist (List.take_sublist ..) hp
  · exact List.Pairwise.sublist
      ((List.take_sublist ..).trans (List.drop_sublist ..)) hp
  · exact List.Pairwise.sublist
      ((List.take_sublist ..).trans (List.drop_sublist ..)) hp
  · exact List.Pairwise.sublist (List.take_sublist ..) hp

/-- Witness for C6: all renderings of a concrete sorted scan result are
descending. -/
theorem presentation_sorted_witness :
    (listRendering pwItems).Pairwise sizeGe
    ∧ (bubbleLarge pwItems).Pairwise sizeGe
    ∧ (bubbleMedium pwItems).Pairwise sizeGe
    ∧ (bubbleSmall pwItems).Pairwise sizeGe
    ∧ (bubbleList pwItems).Pairwise sizeGe :=
  presentation_sorted pwItems (by decide)

/-- C7: when the backend scan of the current path fails (and the cache was
bypassed, by force or by a miss), the caller ends with an empty item list,
an untouched cache (in particular no entry written for the path), a cleared
selection, and exactly one error message. -/
theorem scan_failure_no_result (s : AppState) (forceRefresh : Bool)
    (scan : String → Except String ScanResult) (now : Nat) (msg : String)
    (hcur : s.currentPath ≠ "")
    (hbypass : forceRefresh = true ∨ cacheGet s.scanCache s.currentPath = none)
    (hscan : scan s.currentPath = .error msg) :
    startScan s forceRefresh scan now
      = ({ s with items := [], selectedItems := [] }, ["scan failed: " ++ msg]) := by
  rcases hbypass with hforce | hnone
  · subst hforce
    simp [startScan, hcur, hscan]
  · cases forceRefresh
    · simp [startScan, hcur, hnone, hscan]
    · simp [startScan, hcur, hscan]

/-- Witness for C7: a concrete failing scan leaves no result, the cache
untouched and one message. -/
theorem scan_failure_no_result_witness :
    startScan wState true wScanFail 4
      = ({ wState with items := [], selectedItems := [] }, ["scan failed: " ++ "boom"]) :=
  scan_failure_no_result wState true wScanFail 4 "boom" (by decide) (Or.inl rfl) rfl

/-- C8: in the cached variant, going back with a non-empty history to a path
that has no cache entry updates only `currentPath` and `pathHistory`; the
displayed items and stats (and everything else: selection, cache, deletion
history) stay those of the previously shown directory, no rescan happens
(`goBack` consults no scan oracle) and no message is emitted (`goBack`
produces none). -/
theorem goBack_cacheMiss_frame (s : AppState)
    (hne : s.pathHistory ≠ [])
    (hmiss : cacheGet s.scanCache (s.pathHistory.getLastD "") = none) :
    goBack s = { s with
        currentPath := s.pathHistory.getLastD ""
        pathHistory := s.pathHistory.dropLast } := by
  simp only [List.getLastD_eq_getLast?] at hmiss
  simp [goBack, hne, hmiss]

/-- Witness for C8: a concrete back navigation to an uncached path changes
only the path fields. -/
theorem goBack_cacheMiss_frame_witness :
    goBack wBackState = { wBackState with
        currentPath := wBackState.pathHistory.getLastD ""
        pathHistory := wBackState.pathHistory.dropLast } :=
  goBack_cacheMiss_frame wBackState (by decide) (by decide)

/-- C9: with an empty selection the delete handler returns at once with no
message; the result does not depend on the confirmation dialog, the deletion
backend outcome or the scan oracle (none of them is consulted), and the
whole state — items, stats, cache, deletion history — is unchanged. -/
theorem deleteSelected_empty_noop (s : AppState) (confirmed : Bool)
    (deleteRes : Except String Unit)
    (scan : String → Except String ScanResult) (now : Nat)
    (hsel : s.selectedItems = []) :
    deleteSelected s confirmed deleteRes scan now = (s, []) := by
  unfold deleteSelected
  rw [if_pos hsel]

/-- Witness for C9: a concrete empty-selection delete is a no-op whatever
the oracles say. -/
theorem deleteSelected_empty_noop_witness :
    deleteSelected wState false (.error "backend down") wScanFail 0 = (wState, []) :=
  deleteSelected_empty_noop wState false (.error "backend down") wScanFail 0 (by decide)

/-- C10: toggling a path adds it to the selection set if absent and removes
it if present, leaving every other path's membership unchanged; toggling the
same path twice restores exactly the original selection set (as a set, i.e.
extensionally on membership — JS `Set` semantics). -/
theorem toggleSelection_spec (sel : List String) (p : String) :
    (∀ q : String,
      q ∈ toggleSelection sel p ↔ ((q ∈ sel ∧ q ≠ p) ∨ (q = p ∧ p ∉ sel)))
    ∧ (∀ q : String,
      q ∈ toggleSelection (toggleSelection sel p) p ↔ q ∈ sel) := by
  have base : ∀ (l : List String) (q : String),
      q ∈ toggleSelection l p ↔ ((q ∈ l ∧ q ≠ p) ∨ (q = p ∧ p ∉ l)) := by
    intro l q
    unfold toggleSelection
    split_ifs with hp
    · simp only [List.mem_filter, bne_iff_ne, ne_eq]
      constructor
      · intro h
        exact Or.inl ⟨h.1, h.2⟩
      · rintro (⟨h1, h2⟩ | ⟨rfl, h2⟩)
        · exact ⟨h1, h2⟩
        · exact absurd hp h2
    · simp only [List.mem_append, List.mem_singleton]
      constructor
      · rintro (h1 | rfl)
        · exact Or.inl ⟨h1, fun he => hp (he ▸ h1)⟩
        · exact Or.inr ⟨rfl, hp⟩
      · rintro (⟨h1, _⟩ | ⟨rfl, _⟩)
        · exact Or.inl h1
        · exact Or.inr rfl
  refine ⟨base sel, ?_⟩
  intro q
  rw [base _ q, base sel q, base sel p]
  by_cases hq : q = p <;> by_cases hp : p ∈ sel <;> simp [hq, hp]

/-- Witness for C10: toggling a concrete selected path twice keeps another
path's membership. -/
theorem toggleSelection_spec_witness :
    "a" ∈ toggleSelection (toggleSelection ["a", "b"] "b") "b" ↔ "a" ∈ ["a", "b"] :=
  (toggleSelection_spec ["a", "b"] "b").2 "a"

end CleanDir
